import Mathlib

/-!
Shallow embedding of the `docs-lm` vector-store core
(`src/vectorStore/chromaStore.js`, `src/services/documentProcessor.js`,
and the RAG query service) together with theorems checking the
natural-language specification against it.

Modelling conventions:
* JavaScript numbers stored in the collections are modelled as rationals
  (`ℚ`); the cosine-similarity score (which involves `Math.sqrt`) is
  idealised as a real number (`ℝ`).
* The mutable object state is passed explicitly: every method takes and
  returns the store (and a `World` holding the persisted files, the
  failure switches of the file system, the uuid supply and a ghost log of
  external calls) and returns its result as an `Except`, mirroring a
  JavaScript `throw` with `Except.error`.
* `uuidv4()` is modelled as a deterministic fresh-id counter held in the
  `World`; nothing in the claims depends on the shape of the ids.
* Timestamp fields (`savedAt`, `exportedAt`, `processedAt`) carry no
  behavioural weight in the source and are omitted from the snapshots.
-/

/-- Errors a method can throw.  `notInit` models the "not initialized"
`Error`s, `provider` an embedding/completion provider failure, `persistence`
a file-system read/write failure, `noEmbedMethod` the `TypeError`/`Error`
raised when the embedding function lacks the required methods,
`lengthMismatch` the vector-length check in `cosineSimilarity`, and
`nullAccess` a JavaScript `TypeError` from reading a property of
`null`/`undefined`. -/

inductive Err where
  | notInit
  | provider
  | persistence
  | noEmbedMethod
  | lengthMismatch
  | nullAccess
deriving DecidableEq, Repr

/-- An embedding vector (a JavaScript array of numbers). -/

abbrev Vec := List ℚ

/-- A metadata object: string keys mapped to scalar values (modelled as
strings).  Lookup takes the first matching key. -/

abbrev Metadata := List (String × String)

/-- Property read `m[k]` on a metadata object: `none` models `undefined`. -/

def lookupMeta (m : Metadata) (k : String) : Option String :=
  (m.find? (fun e => e.1 == k)).map (·.2)

/-- A document handed to `addDocuments` (a LangChain chunk):
`pageContent` plus a metadata object. -/

structure JsDoc where
  pageContent : String
  metadata : Metadata
deriving DecidableEq, Repr

/-- The four parallel collections owned by the store. -/

structure StoreData where
  ids : List String
  documents : List String
  embeddings : List Vec
  metadatas : List Metadata
deriving DecidableEq, Repr

def emptyData : StoreData := ⟨[], [], [], []⟩

/-- The persisted snapshot written by `saveToDisk`: the four parallel
arrays (the stored collection name and `savedAt` timestamp are not
behaviourally relevant and are omitted). -/

abbrev Snapshot := StoreData

/-- The `ChromaStore` object state.  `data = none` models the (never
reached) situation in which `this.documents` is `null`/`undefined`; the
constructor already sets all four collections to `[]`. -/

structure ChromaStore where
  data : Option StoreData
  isPersistent : Bool
  collectionName : String
deriving DecidableEq, Repr

/-- The `ChromaStore` constructor: empty collections, memory mode. -/

def ChromaStore.new (collectionName : String) : ChromaStore :=
  ⟨some emptyData, false, collectionName⟩

/-- Ghost log of externally visible effects (used to state frame claims). -/

inductive Event where
  | batchCall
  | singleCall
  | diskWrite
deriving DecidableEq, Repr

/-- The environment: the persisted files keyed by collection name (a fresh
write is consed on and `List.lookup` finds the newest entry), failure
switches for disk reads/writes, the uuid supply, and the ghost event log. -/

structure World where
  disk : List (String × Snapshot)
  readFails : Bool
  writeFails : Bool
  nextId : Nat
  log : List Event

/-- The embedding provider (external collaborator): an object that may
expose `embedDocuments` (batch) and/or `embedQuery` (single). -/

structure EmbeddingProvider where
  batch : Option (List String → Except Err (List Vec))
  single : Option (String → Except Err Vec)

/-- Allocate `n` fresh ids (models the `uuidv4()` calls in the insert loop). -/

def allocIds (w : World) (n : Nat) : List String × World :=
  ((List.range n).map (fun i => toString (w.nextId + i)),
   { w with nextId := w.nextId + n })

/-- `verifyInitialization`: throws iff `this.documents` is `null`/`undefined`.
Note the constructor already assigns `[]`, so this check can only fail on
the unreachable `data = none` states. -/

def ChromaStore.verifyInitialization (s : ChromaStore) : Except Err Unit :=
  if s.data.isNone then .error .notInit else .ok ()

/-- `loadFromDisk`: reads the persisted snapshot for the collection if the
file exists (a read/parse failure throws, leaving the collections
untouched); otherwise starts with empty collections. -/

def ChromaStore.loadFromDisk (w : World) (s : ChromaStore) :
    Except Err Unit × World × ChromaStore :=
  match w.disk.lookup s.collectionName with
  | some snap =>
      if w.readFails then (.error .persistence, w, s)
      else (.ok (), w, { s with data := some snap })
  | none => (.ok (), w, { s with data := some emptyData })

/-- `saveToDisk`: returns immediately in memory mode; in persistent mode
writes the full current snapshot, throwing on a write failure. -/

def ChromaStore.saveToDisk (w : World) (s : ChromaStore) :
    Except Err Unit × World :=
  if s.isPersistent = false then (.ok (), w)
  else if w.writeFails then
    (.error .persistence, { w with log := w.log ++ [.diskWrite] })
  else
    (.ok (),
     { w with
        disk := (s.collectionName, s.data.getD emptyData) :: w.disk,
        log := w.log ++ [.diskWrite] })

/-- Models the `initialize(persistent, collectionName)` method: records the
mode (and collection name when given), then either loads from disk
(persistent) or starts with empty collections (memory). -/

def ChromaStore.initMode (persistent : Bool) (collectionName : Option String)
    (w : World) (s : ChromaStore) : Except Err Unit × World × ChromaStore :=
  let s1 := { s with
                isPersistent := persistent,
                collectionName := collectionName.getD s.collectionName }
  if persistent then s1.loadFromDisk w
  else (.ok (), w, { s1 with data := some emptyData })

/-- The one-at-a-time fallback loop of `generateEmbeddings`: one
`embedQuery` call per text, stopping at the first provider failure.  Each
call is recorded in the ghost log. -/

def embedLoop (g : String → Except Err Vec) :
    List String → List Vec → World → Except Err (List Vec) × World
  | [], vs, w => (.ok vs, w)
  | t :: rest, vs, w =>
    match g t with
    | .ok v => embedLoop g rest (vs ++ [v]) { w with log := w.log ++ [.singleCall] }
    | .error e => (.error e, { w with log := w.log ++ [.singleCall] })

/-- `generateEmbeddings`: uses the provider's batch method when present,
falls back to one-at-a-time `embedQuery` calls, and throws when neither
method exists.  Each provider call is recorded in the ghost log. -/

def ChromaStore.generateEmbeddings (p : EmbeddingProvider) (texts : List String)
    (w : World) : Except Err (List Vec) × World :=
  match p.batch with
  | some f => (f texts, { w with log := w.log ++ [.batchCall] })
  | none =>
    match p.single with
    | some g => embedLoop g texts [] w
    | none => (.error .noEmbedMethod, w)

/-- The `await this.saveToDisk()` tail shared by the mutating methods: a
write failure rethrows, otherwise the method returns; either way the
in-memory store keeps its (already mutated) state. -/

def flushAfter (w : World) (s : ChromaStore) :
    Except Err Unit × World × ChromaStore :=
  match s.saveToDisk w with
  | (.error e, w') => (.error e, w', s)
  | (.ok _, w') => (.ok (), w', s)

/-- The metadata actually stored for a chunk:
`{ source: doc.metadata?.source || 'unknown', ...doc.metadata }`, i.e. the
document's own metadata, with a `source: "unknown"` entry added when the
`source` key is absent. -/

def storedMetadata (m : Metadata) : Metadata :=
  if (lookupMeta m "source").isSome then m else ("source", "unknown") :: m

/-- `addDocuments(documents)`: no-op on a `null`/`undefined`/empty list;
otherwise builds ids, texts and metadata, generates the embeddings (a
failure there throws before anything is appended), then appends aligned
entries to all four collections and flushes to disk. -/

def ChromaStore.addDocuments (p : EmbeddingProvider) (docs : Option (List JsDoc))
    (w : World) (s : ChromaStore) : Except Err Unit × World × ChromaStore :=
  match s.data with
  | none => (.error .notInit, w, s)
  | some d =>
    match docs with
    | none => (.ok (), w, s)
    | some ds =>
      if ds.length = 0 then (.ok (), w, s)
      else
        let (newIds, w1) := allocIds w ds.length
        let newTexts := ds.map (·.pageContent)
        let newMetas := ds.map (fun doc => storedMetadata doc.metadata)
        match ChromaStore.generateEmbeddings p newTexts w1 with
        | (.error e, w2) => (.error e, w2, s)
        | (.ok newEmbs, w2) =>
          let d' : StoreData :=
            ⟨d.ids ++ newIds, d.documents ++ newTexts,
             d.embeddings ++ newEmbs, d.metadatas ++ newMetas⟩
          let s' := { s with data := some d' }
          flushAfter w2 s' 

/-- Sum of pairwise products (the `dotProduct` accumulator in
`cosineSimilarity`). -/

def dotProduct (a b : Vec) : ℚ :=
  (a.zip b).foldl (fun acc p => acc + p.1 * p.2) 0

/-- Sum of squares (the `normA`/`normB` accumulators); its square root is
the Euclidean norm. -/

def normSq (a : Vec) : ℚ :=
  a.foldl (fun acc x => acc + x * x) 0

/-- `cosineSimilarity(a, b)`: throws on a length mismatch, otherwise the
dot product divided by the product of the Euclidean norms. -/

noncomputable def ChromaStore.cosineSimilarity (a b : Vec) : Except Err ℝ :=
  if a.length ≠ b.length then .error .lengthMismatch
  else .ok ((dotProduct a b : ℝ) / (Real.sqrt (normSq a) * Real.sqrt (normSq b)))

/-- `metadatas[i][key] !== value` fails for some filter entry.  An empty
filter matches every record. -/

def matchesFilter (filt : Metadata) (m : Metadata) : Bool :=
  filt.all (fun kv => lookupMeta m kv.1 == some kv.2)

/-- A document as returned by the search methods. -/

structure RetDoc where
  pageContent : String
  metadata : Metadata
deriving DecidableEq, Repr

/-- One entry of the `scoredResults` array built by the search loop. -/

structure ScoredResult where
  document : RetDoc
  score : ℝ
  index : Nat

/-- The search loop over the stored records (one step per index `i`): skip
the records that fail the metadata filter (`continue`), score the rest
with `cosineSimilarity` (whose length-mismatch `throw` propagates out of
the loop) and push onto the `scoredResults` accumulator. -/

noncomputable def scoreLoop (qe : Vec) (d : StoreData) (filt : Metadata) :
    List Nat → List ScoredResult → Except Err (List ScoredResult)
  | [], acc => .ok acc
  | i :: rest, acc =>
    let meta := d.metadatas.getD i []
    if matchesFilter filt meta then
      match ChromaStore.cosineSimilarity qe (d.embeddings.getD i []) with
      | .error e => .error e
      | .ok sim =>
        scoreLoop qe d filt rest (acc ++ [⟨⟨d.documents.getD i "", meta⟩, sim, i⟩])
    else scoreLoop qe d filt rest acc

/-- The `scoredResults` array built by the search loop over all stored
record indices. -/

noncomputable def scoreRecords (qe : Vec) (d : StoreData) (filt : Metadata) :
    Except Err (List ScoredResult) :=
  scoreLoop qe d filt (List.range d.documents.length) []

/-- The sort relation of `scoredResults.sort((a, b) => b.score - a.score)`:
`a` stays before `b` whenever `b.score ≤ a.score`; the engine's sort is
stable, modelled by `List.insertionSort` (a stable sort). -/

def scoreGE (a b : ScoredResult) : Prop := b.score ≤ a.score

noncomputable instance : DecidableRel scoreGE :=
  fun a b => Real.decidableLE b.score a.score

/-- The single-text embedding call `this.embeddingFunction.embedQuery(q)`:
a missing method is a thrown `TypeError`; the call is logged. -/

def embedQueryCall (p : EmbeddingProvider) (q : String) (w : World) :
    Except Err Vec × World :=
  match p.single with
  | none => (.error .noEmbedMethod, w)
  | some g => (g q, { w with log := w.log ++ [.singleCall] })

/-- `similaritySearch(query, k, filter)`: empty collection returns `[]`;
every failure inside the `try` (provider failure, length mismatch) is
caught and degraded to `[]`; otherwise the filtered records are scored,
stably sorted by descending score and the top `k` documents returned. -/

noncomputable def ChromaStore.similaritySearch (p : EmbeddingProvider)
    (query : String) (k : Nat) (filt : Metadata) (w : World) (s : ChromaStore) :
    Except Err (List RetDoc) × World × ChromaStore :=
  match s.data with
  | none => (.error .notInit, w, s)
  | some d =>
    if d.documents.length = 0 then (.ok [], w, s)
    else
      match embedQueryCall p query w with
      | (.error _, w') => (.ok [], w', s)
      | (.ok qe, w') =>
        match scoreRecords qe d filt with
        | .error _ => (.ok [], w', s)
        | .ok scored =>
          let sorted := scored.insertionSort scoreGE
          (.ok ((sorted.take k).map (·.document)), w', s)

/-- `searchWithScores(query, k, filter)`: same pipeline as
`similaritySearch` but returns (document, score) pairs and rethrows
failures instead of degrading to `[]`. -/

noncomputable def ChromaStore.searchWithScores (p : EmbeddingProvider)
    (query : String) (k : Nat) (filt : Metadata) (w : World) (s : ChromaStore) :
    Except Err (List (RetDoc × ℝ)) × World × ChromaStore :=
  match s.data with
  | none => (.error .notInit, w, s)
  | some d =>
    if d.documents.length = 0 then (.ok [], w, s)
    else
      match embedQueryCall p query w with
      | (.error e, w') => (.error e, w', s)
      | (.ok qe, w') =>
        match scoreRecords qe d filt with
        | .error e => (.error e, w', s)
        | .ok scored =>
          let sorted := scored.insertionSort scoreGE
          (.ok ((sorted.take k).map (fun r => (r.document, r.score))), w', s)

/-- Erase the positions `idxs` (visited in reverse order, as the source
splices in reverse to keep earlier indices stable). -/

def eraseIdxsRev (l : List α) (idxs : List Nat) : List α :=
  idxs.reverse.foldl (fun acc i => acc.eraseIdx i) l

/-- `deleteDocuments(ids)`: collects the indices whose id occurs in `ids`,
splices them out of all four collections in reverse order, and flushes. -/

def ChromaStore.deleteDocuments (ids : List String) (w : World) (s : ChromaStore) :
    Except Err Unit × World × ChromaStore :=
  match s.data with
  | none => (.error .notInit, w, s)
  | some d =>
    let idxs := (List.range d.ids.length).filter
      (fun i => ids.contains (d.ids.getD i ""))
    let d' : StoreData :=
      ⟨eraseIdxsRev d.ids idxs, eraseIdxsRev d.documents idxs,
       eraseIdxsRev d.embeddings idxs, eraseIdxsRev d.metadatas idxs⟩
    let s' := { s with data := some d' }
    flushAfter w s' 

/-- `getDocumentCount()`. -/

def ChromaStore.getDocumentCount (s : ChromaStore) : Except Err Nat :=
  match s.data with
  | none => .error .notInit
  | some d => .ok d.documents.length

/-- The export payload: collection name plus the four parallel arrays
(the `exportedAt` timestamp is omitted). -/

structure ExportData where
  collectionName : String
  data : StoreData
deriving DecidableEq, Repr

/-- `exportData()`. -/

def ChromaStore.exportData (s : ChromaStore) : Except Err ExportData :=
  match s.data with
  | none => .error .notInit
  | some d => .ok ⟨s.collectionName, d⟩

/-- `importData(data)`: appends (does not replace) the payload's four
arrays when the payload is non-empty, then flushes. -/

def ChromaStore.importData (e : ExportData) (w : World) (s : ChromaStore) :
    Except Err Unit × World × ChromaStore :=
  match s.data with
  | none => (.error .notInit, w, s)
  | some d =>
    if 0 < e.data.ids.length then
      let d' : StoreData :=
        ⟨d.ids ++ e.data.ids, d.documents ++ e.data.documents,
         d.embeddings ++ e.data.embeddings, d.metadatas ++ e.data.metadatas⟩
      let s' := { s with data := some d' }
      flushAfter w s' 
    else (.ok (), w, s)

/-- `clearCollection()`: empties all four collections and flushes. -/

def ChromaStore.clearCollection (w : World) (s : ChromaStore) :
    Except Err Unit × World × ChromaStore :=
  match s.data with
  | none => (.error .notInit, w, s)
  | some _ =>
    let s' := { s with data := some emptyData }
    flushAfter w s' 

/-- `switchMode(persistent, preserveData)`: exports the snapshot when
preserving a non-empty store (an export failure is only warned about),
re-runs the mode intake in the target mode, then clears and re-imports the
snapshot.  Reading `this.documents.length` on a `null` array would be a
`TypeError`. -/

def ChromaStore.switchMode (persistent preserveData : Bool) (w : World)
    (s : ChromaStore) : Except Err Unit × World × ChromaStore :=
  match s.data with
  | none => (.error .nullAccess, w, s)
  | some d =>
    let exported : Option ExportData :=
      if preserveData = true ∧ 0 < d.documents.length then
        match s.exportData with
        | .ok e => some e
        | .error _ => none
      else none
    match s.initMode persistent (some s.collectionName) w with
    | (.error e, w', s') => (.error e, w', s')
    | (.ok _, w', s') =>
      match exported with
      | some e =>
        let s'' := { s' with data := some emptyData }
        s''.importData e w'
      | none => (.ok (), w', s')

/-! ## Document processor (`src/services/documentProcessor.js`) -/

/-- The `{processed, added, skipped}` counters returned by the processor. -/

structure Stats where
  processed : Nat
  added : Nat
  skipped : Nat
deriving DecidableEq, Repr

/-- The processor state: the processed-file map (keys only — the stored
values are never read) plus the owned `ChromaStore` (the default
`useChromaDB = true` configuration). -/

structure DocumentProcessor where
  processedFiles : List (String × Nat)
  store : ChromaStore
deriving Repr

/-- `fs.statSync(doc.metadata.source)` followed by the
`` `${source}_${mtime}` `` key: a missing `source` key or a missing file is
a thrown error.  `mt` is the file system's modification-time table. -/

def fileKeyOf (mt : String → Option Nat) (doc : JsDoc) :
    Except Err (String × Nat) :=
  match lookupMeta doc.metadata "source" with
  | none => .error .nullAccess
  | some src =>
    match mt src with
    | none => .error .persistence
    | some t => .ok (src, t)

/-- The incremental-detection loop of `processDocuments`: walks the chunks,
skipping those whose `(source, mtime)` key is already recorded and
recording the keys of the new ones.  The key map (mutated in place in the
source) is returned even when `statSync` throws mid-loop. -/

def procLoop (mt : String → Option Nat) :
    List JsDoc → List JsDoc → List (String × Nat) → Stats →
    Except Err (List JsDoc × Stats) × List (String × Nat)
  | [], nd, pf, st => (.ok (nd, st), pf)
  | doc :: rest, nd, pf, st =>
    match fileKeyOf mt doc with
    | .error e => (.error e, pf)
    | .ok key =>
      if pf.contains key then
        procLoop mt rest nd pf { st with skipped := st.skipped + 1 }
      else
        procLoop mt rest (nd ++ [doc]) (pf ++ [key])
          { st with processed := st.processed + 1 }

/-- `processDocuments(documents)`: run the detection loop, then add the new
chunks to the store in a single batch call (whose failure propagates after
the key map was already updated). -/

def DocumentProcessor.processDocuments (p : EmbeddingProvider)
    (mt : String → Option Nat) (docs : List JsDoc) (w : World)
    (proc : DocumentProcessor) : Except Err Stats × World × DocumentProcessor :=
  match procLoop mt docs [] proc.processedFiles ⟨0, 0, 0⟩ with
  | (.error e, pf') => (.error e, w, { proc with processedFiles := pf' })
  | (.ok (nd, st), pf') =>
    if 0 < nd.length then
      match ChromaStore.addDocuments p (some nd) w proc.store with
      | (.error e, w', s') => (.error e, w', ⟨pf', s'⟩)
      | (.ok _, w', s') => (.ok { st with added := nd.length }, w', ⟨pf', s'⟩)
    else (.ok st, w, { proc with processedFiles := pf' })

/-- `processAllDocuments()`: loads and splits the corpus (modelled by the
`docs` parameter — the loader and splitter are external collaborators) and
runs the incremental processing; an empty corpus short-circuits. -/

def DocumentProcessor.processAllDocuments (p : EmbeddingProvider)
    (mt : String → Option Nat) (docs : List JsDoc) (w : World)
    (proc : DocumentProcessor) : Except Err Stats × World × DocumentProcessor :=
  if docs.length = 0 then (.ok ⟨0, 0, 0⟩, w, proc)
  else proc.processDocuments p mt docs w

/-! ## RAG query service (the `RAGService` source file) -/

/-- A query answer: the payload plus the `metadata.cached` flag (the other
response fields carry no weight for the cache claims). -/

structure AskResult where
  answer : String
  cached : Bool
deriving DecidableEq, Repr

/-- The `RAGService` state: `ready` models `isInitialized` (set only at the
end of a successful intake), plus the optional collaborators and the
insertion-ordered query cache. -/

structure RAGService where
  ready : Bool
  chromaStore : Option ChromaStore
  ragChain : Option Unit
  queryCache : List (String × AskResult)
  cacheEnabled : Bool
  maxCacheSize : Nat

/-- `Map.set`: replaces the value in place when the key exists, otherwise
appends in insertion order. -/

def mapSet (c : List (String × AskResult)) (k : String) (v : AskResult) :
    List (String × AskResult) :=
  if c.any (fun e => e.1 == k) then
    c.map (fun e => if e.1 == k then (k, v) else e)
  else c ++ [(k, v)]

/-- `cacheResult(question, result)`: when the cache has reached
`maxCacheSize`, deletes the first-inserted key (FIFO, the head of the
insertion-ordered map; on an empty map `keys().next().value` is
`undefined` and the delete is a no-op), then stores the result with the
`cached` flag set. -/

def RAGService.cacheResult (question : String) (result : AskResult)
    (svc : RAGService) : RAGService :=
  let c :=
    if svc.maxCacheSize ≤ svc.queryCache.length then svc.queryCache.tail
    else svc.queryCache
  { svc with queryCache := mapSet c question { result with cached := true } }

/-- The query service's `verifyInitialization`: fails unless the intake
completed and both collaborators are present. -/

def RAGService.verifyInitialization (svc : RAGService) : Except Err Unit :=
  if svc.ready = false then .error .notInit
  else if svc.chromaStore.isNone then .error .notInit
  else if svc.ragChain.isNone then .error .notInit
  else .ok ()

/-- `ask(question, options)`: precondition check, cache lookup, then the
RAG chain call (an external collaborator, modelled by `chain`), caching the
result on success.  Retriever re-wiring and per-call `k`/`filter` are
orchestration over the external chain and are not modelled. -/

def RAGService.ask (chain : String → Except Err AskResult) (question : String)
    (useCache : Bool) (svc : RAGService) : Except Err AskResult × RAGService :=
  match svc.verifyInitialization with
  | .error e => (.error e, svc)
  | .ok _ =>
    match (if useCache then svc.queryCache.lookup question else none) with
    | some r => (.ok r, svc)
    | none =>
      match chain question with
      | .error e => (.error e, svc)
      | .ok result =>
        let svc' := if useCache then svc.cacheResult question result else svc
        (.ok { result with cached := false }, svc')

/-! ## Spec-side characterisation of the search (for the refinement claims)

`specCosine`, `specMatched` and `specRankLE` follow the specification's
words: cosine similarity is the dot product divided by the product of the
Euclidean norms; the considered records are exactly those whose metadata
matches every filter key; ranking is by descending score with ties broken
by original insertion order. -/

/-- Cosine similarity as the spec states it (total on ℝ). -/

noncomputable def specCosine (a b : Vec) : ℝ :=
  (dotProduct a b : ℝ) / (Real.sqrt (normSq a) * Real.sqrt (normSq b))

/-- The scored record the search loop builds for index `i`. -/

noncomputable def mkScored (qe : Vec) (d : StoreData) (i : Nat) : ScoredResult :=
  ⟨⟨d.documents.getD i "", d.metadatas.getD i []⟩,
   specCosine qe (d.embeddings.getD i []), i⟩

/-- Exactly the stored records whose metadata matches every filter key,
each scored by cosine similarity against the query embedding, in insertion
order. -/

noncomputable def specMatched (qe : Vec) (d : StoreData) (filt : Metadata) :
    List ScoredResult :=
  ((List.range d.documents.length).filter
      (fun i => matchesFilter filt (d.metadatas.getD i []))).map (mkScored qe d)

/-- The ranking the spec prescribes: descending similarity score, ties
broken by original insertion order. -/

def specRankLE (a b : ScoredResult) : Prop :=
  b.score < a.score ∨ (a.score = b.score ∧ a.index ≤ b.index)

def w0 : World := ⟨[], false, false, 0, []⟩

def dW : StoreData :=
  ⟨["id0", "id1"], ["alpha", "beta"], [[1, 0], [0, 1]],
   [[("source", "a")], [("source", "b")]]⟩

def sW : ChromaStore := ⟨some dW, false, "col"⟩

def pSingle : EmbeddingProvider := ⟨none, some (fun _ => .ok [1, 0])⟩

/-- A provider whose single-text method always fails (for witnesses). -/

def pFail : EmbeddingProvider := ⟨none, some (fun _ => .error .provider)⟩

/-! ## The parallel-collection alignment invariant (C2) -/

/-- The four parallel collections have equal length. -/

def alignedData (d : StoreData) : Prop :=
  d.ids.length = d.documents.length ∧
  d.embeddings.length = d.documents.length ∧
  d.metadatas.length = d.documents.length

instance (d : StoreData) : Decidable (alignedData d) := by
  unfold alignedData; infer_instance

/-- Every populated state of the store is aligned. -/

def alignedStore (s : ChromaStore) : Prop :=
  ∀ d, s.data = some d → alignedData d

/-- Every persisted snapshot is aligned (they are written from aligned
stores). -/

def diskAligned (w : World) : Prop :=
  ∀ nm snap, (nm, snap) ∈ w.disk → alignedData snap

/-- The embedding provider's batch contract: one vector per input text
(spec §6, external interfaces). -/

def BatchContract (p : EmbeddingProvider) : Prop :=
  ∀ f texts embs, p.batch = some f → f texts = .ok embs →
    embs.length = texts.length

/-- The four extended collections after a successful `addDocuments`. -/

def addedData (d : StoreData) (ds : List JsDoc) (w : World)
    (embs : List Vec) : StoreData :=
  ⟨d.ids ++ (allocIds w ds.length).1,
   d.documents ++ ds.map (·.pageContent),
   d.embeddings ++ embs,
   d.metadatas ++ ds.map (fun doc => storedMetadata doc.metadata)⟩

/-- The mutating operations of the store, as one alphabet (used to state
the all-operations invariant claim). -/

inductive StoreOp where
  | add (docs : Option (List JsDoc))
  | del (ids : List String)
  | imp (e : ExportData)
  | clear
  | switch (persistent preserve : Bool)

/-- Run one store operation. -/

def ChromaStore.runOp (p : EmbeddingProvider) (op : StoreOp) (w : World)
    (s : ChromaStore) : Except Err Unit × World × ChromaStore :=
  match op with
  | .add docs => ChromaStore.addDocuments p docs w s
  | .del ids => ChromaStore.deleteDocuments ids w s
  | .imp e => ChromaStore.importData e w s
  | .clear => ChromaStore.clearCollection w s
  | .switch pe pr => ChromaStore.switchMode pe pr w s

/-- Input well-formedness: an import payload is a snapshot, i.e. its four
parallel arrays are aligned (spec §6, persisted snapshot format). -/

def opWellFormed : StoreOp → Prop
  | .imp e => alignedData e.data
  | _ => True

/-- Iterated caching of a batch of questions (the `ask` misses call
`cacheResult` once per distinct question). -/

def cacheInsertRun (f : String → AskResult) (qs : List String)
    (svc : RAGService) : RAGService :=
  qs.foldl (fun a q => RAGService.cacheResult q (f q) a) svc

def svcEmpty (N : Nat) : RAGService := ⟨true, none, none, [], true, N⟩

def svcUninit : RAGService := ⟨false, none, none, [], false, 100⟩

/-! ## Theorems -/


theorem specRankLE_score {a b : ScoredResult} (h : specRankLE a b) :
    b.score ≤ a.score := by
  rcases h with h | ⟨h, _⟩
  · exact le_of_lt h
  · exact le_of_eq h.symm

/-- When the two vectors have equal length, `cosineSimilarity` returns the
spec's formula. -/

theorem cosineSimilarity_eq_spec {a b : Vec} (h : a.length = b.length) :
    ChromaStore.cosineSimilarity a b = .ok (specCosine a b) := by
  simp [ChromaStore.cosineSimilarity, h, specCosine]

/-- The search loop, on any index set whose scorings succeed, returns
exactly the filter-matching records with their cosine scores. -/

theorem scoreLoop_eq_spec (qe : Vec) (d : StoreData) (filt : Metadata)
    (is : List Nat) (acc : List ScoredResult)
    (h : ∀ i ∈ is, matchesFilter filt (d.metadatas.getD i []) = true →
      ChromaStore.cosineSimilarity qe (d.embeddings.getD i [])
        = .ok (specCosine qe (d.embeddings.getD i []))) :
    scoreLoop qe d filt is acc
      = .ok (acc ++ (is.filter
          (fun i => matchesFilter filt (d.metadatas.getD i []))).map (mkScored qe d)) := by
  induction is generalizing acc with
  | nil => simp [scoreLoop]
  | cons i rest ih =>
    by_cases hm : matchesFilter filt (d.metadatas.getD i []) = true
    · rw [scoreLoop, if_pos hm, h i (List.mem_cons_self i rest) hm]
      dsimp only
      rw [ih _ (fun j hj hmj => h j (List.mem_cons_of_mem i hj) hmj)]
      simp only [mkScored, List.filter_cons, if_pos hm, List.map_cons,
        List.append_assoc, List.singleton_append]
    · rw [scoreLoop, if_neg hm,
        ih _ (fun j hj hmj => h j (List.mem_cons_of_mem i hj) hmj),
        List.filter_cons, if_neg hm]

/-- `scoreRecords` computes exactly the spec's matched records whenever all
stored embeddings have the query embedding's length. -/

theorem scoreRecords_eq_spec (qe : Vec) (d : StoreData) (filt : Metadata)
    (hle : d.embeddings.length = d.documents.length)
    (hlen : ∀ e ∈ d.embeddings, e.length = qe.length) :
    scoreRecords qe d filt = .ok (specMatched qe d filt) := by
  have h : ∀ i ∈ List.range d.documents.length,
      matchesFilter filt (d.metadatas.getD i []) = true →
      ChromaStore.cosineSimilarity qe (d.embeddings.getD i [])
        = .ok (specCosine qe (d.embeddings.getD i [])) := by
    intro i hi _
    have hi' : i < d.embeddings.length := by
      rw [hle]; exact List.mem_range.mp hi
    have hmem : d.embeddings.getD i [] ∈ d.embeddings := by
      rw [List.getD_eq_getElem _ _ hi']
      exact List.getElem_mem hi'
    exact cosineSimilarity_eq_spec (hlen _ hmem).symm
  unfold scoreRecords specMatched
  rw [scoreLoop_eq_spec qe d filt _ [] h, List.nil_append]

/-- Inserting a record whose index precedes every index in a spec-ranked
list keeps the list spec-ranked (the heart of the stability argument: the
sort comparator only looks at scores, insertion order decides ties). -/

theorem orderedInsert_sorted_spec {a : ScoredResult} :
    ∀ {l : List ScoredResult}, l.Sorted specRankLE →
      (∀ x ∈ l, a.index < x.index) →
      (l.orderedInsert scoreGE a).Sorted specRankLE := by
  intro l
  induction l with
  | nil => intro _ _; simp [List.orderedInsert, List.sorted_singleton]
  | cons b t ih =>
    intro hs ha
    rw [List.orderedInsert]
    by_cases hab : scoreGE a b
    · rw [if_pos hab]
      have hsbt := hs
      rw [List.sorted_cons]
      refine ⟨?_, hsbt⟩
      intro x hx
      have hxb : x.score ≤ a.score := by
        rcases List.mem_cons.mp hx with rfl | hxt
        · exact hab
        · exact le_trans (specRankLE_score ((List.sorted_cons.mp hsbt).1 x hxt)) hab
      rcases lt_or_eq_of_le hxb with hlt | heq
      · exact Or.inl hlt
      · exact Or.inr ⟨heq.symm, le_of_lt (ha x hx)⟩
    · rw [if_neg hab]
      have hs' := List.sorted_cons.mp hs
      rw [List.sorted_cons]
      constructor
      · intro x hx
        rcases (List.mem_orderedInsert scoreGE).mp hx with rfl | hxt
        · exact Or.inl (lt_of_not_le hab)
        · exact hs'.1 x hxt
      · exact ih hs'.2 (fun x hx => ha x (List.mem_cons_of_mem b hx))

/-- Stability: a stable sort by descending score of a list whose indices
strictly increase is sorted by the spec's ranking (descending score, ties
by insertion order). -/

theorem insertionSort_sorted_spec :
    ∀ {l : List ScoredResult}, l.Pairwise (fun a b => a.index < b.index) →
      (l.insertionSort scoreGE).Sorted specRankLE := by
  intro l
  induction l with
  | nil => intro _; simp [List.insertionSort, List.sorted_nil]
  | cons a t ih =>
    intro hp
    rw [List.insertionSort]
    have hp' := List.pairwise_cons.mp hp
    exact orderedInsert_sorted_spec (ih hp'.2)
      (fun x hx => hp'.1 x ((List.mem_insertionSort scoreGE).mp hx))

/-- The matched records carry strictly increasing insertion indices. -/

theorem specMatched_pairwise (qe : Vec) (d : StoreData) (filt : Metadata) :
    (specMatched qe d filt).Pairwise (fun a b => a.index < b.index) := by
  unfold specMatched
  rw [List.pairwise_map]
  exact ((List.pairwise_lt_range d.documents.length).filter _).imp (fun h => h)

/-- C1: for an initialized store with a non-empty collection whose stored
embeddings match the query embedding's length (and are non-degenerate, so
the real-valued idealisation of the float scores is faithful),
`similaritySearch(query, k, filter)` considers exactly the records whose
metadata matches every filter key (an empty filter matches all), scores
them by cosine similarity (dot product over the product of Euclidean
norms) against the query embedding, and returns the top
`min(k, matchCount)` chunks sorted by descending score, ties broken by
original insertion order. -/

theorem C1_similaritySearch_spec
    (p : EmbeddingProvider) (q : String) (k : Nat) (filt : Metadata)
    (w : World) (s : ChromaStore) (d : StoreData)
    (g : String → Except Err Vec) (qe : Vec)
    (hd : s.data = some d)
    (hne : d.documents ≠ [])
    (hle : d.embeddings.length = d.documents.length)
    (hg : p.single = some g)
    (hq : g q = .ok qe)
    (hlen : ∀ e ∈ d.embeddings, e.length = qe.length)
    (hqnz : normSq qe ≠ 0)
    (henz : ∀ e ∈ d.embeddings, normSq e ≠ 0) :
    ∃ sorted : List ScoredResult,
      (ChromaStore.similaritySearch p q k filt w s).1
        = .ok ((sorted.take k).map (·.document)) ∧
      sorted.Perm (specMatched qe d filt) ∧
      sorted.Sorted specRankLE ∧
      ((sorted.take k).map (·.document)).length
        = min k (specMatched qe d filt).length := by
  refine ⟨(specMatched qe d filt).insertionSort scoreGE, ?_,
    List.perm_insertionSort _ _,
    insertionSort_sorted_spec (specMatched_pairwise qe d filt), ?_⟩
  · have h0 : ¬ d.documents.length = 0 := by
      simpa [List.length_eq_zero] using hne
    simp only [ChromaStore.similaritySearch, hd, if_neg h0, embedQueryCall,
      hg, hq, scoreRecords_eq_spec qe d filt hle hlen]
  · simp [List.length_take, List.length_insertionSort]

theorem C1_similaritySearch_spec_witness :
    sW.data = some dW ∧ dW.documents ≠ [] ∧
    (∃ sorted : List ScoredResult,
      (ChromaStore.similaritySearch pSingle "q" 1 [] w0 sW).1
        = .ok ((sorted.take 1).map (·.document)) ∧
      sorted.Perm (specMatched [1, 0] dW []) ∧
      sorted.Sorted specRankLE ∧
      ((sorted.take 1).map (·.document)).length
        = min 1 (specMatched [1, 0] dW []).length) :=
  ⟨rfl, by decide,
   C1_similaritySearch_spec pSingle "q" 1 [] w0 sW dW (fun _ => .ok [1, 0])
     [1, 0] rfl (by decide) rfl rfl rfl (by decide) (by norm_num [normSq])
     (by
       intro e he
       simp only [dW, List.mem_cons, List.not_mem_nil, or_false] at he
       rcases he with rfl | rfl <;> norm_num [normSq])⟩

/-- C5: on an initialized store `similaritySearch` never raises: the call
always returns `ok`; on an empty collection it returns `[]` for any query
and `k`; and a failing embedding-provider call degrades to `[]` instead of
propagating. -/

theorem C5_similaritySearch_never_throws
    (p : EmbeddingProvider) (q : String) (k : Nat) (filt : Metadata)
    (w : World) (s : ChromaStore) (d : StoreData)
    (hd : s.data = some d) :
    (ChromaStore.similaritySearch p q k filt w s).1.isOk = true ∧
    (d.documents = [] →
      (ChromaStore.similaritySearch p q k filt w s).1 = .ok []) ∧
    (∀ g e, p.single = some g → g q = .error e →
      (ChromaStore.similaritySearch p q k filt w s).1 = .ok []) := by
  refine ⟨?_, ?_, ?_⟩
  · simp only [ChromaStore.similaritySearch, hd]
    by_cases h0 : d.documents.length = 0
    · simp [h0, Except.isOk, Except.toBool]
    · rcases hpq : embedQueryCall p q w with ⟨r, w'⟩
      simp only [if_neg h0, hpq]
      cases r with
      | error e => simp [Except.isOk, Except.toBool]
      | ok qe =>
        rcases hsr : scoreRecords qe d filt with e | scored <;>
          simp [hsr, Except.isOk, Except.toBool]
  · intro h0
    simp [ChromaStore.similaritySearch, hd, h0]
  · intro g e hg hge
    by_cases hnil : d.documents = []
    · simp [ChromaStore.similaritySearch, hd, hnil]
    · simp [ChromaStore.similaritySearch, hd, hnil, embedQueryCall, hg, hge]

theorem C5_similaritySearch_never_throws_witness :
    ((ChromaStore.similaritySearch pFail "q" 4 [] w0 (ChromaStore.new "col")).1.isOk
      = true) ∧
    ((ChromaStore.similaritySearch pFail "q" 4 [] w0 (ChromaStore.new "col")).1
      = .ok []) ∧
    ((ChromaStore.similaritySearch pFail "q" 4 [] w0 sW).1 = .ok []) :=
  ⟨(C5_similaritySearch_never_throws pFail "q" 4 [] w0 (ChromaStore.new "col")
      emptyData rfl).1,
   (C5_similaritySearch_never_throws pFail "q" 4 [] w0 (ChromaStore.new "col")
      emptyData rfl).2.1 rfl,
   (C5_similaritySearch_never_throws pFail "q" 4 [] w0 sW dW rfl).2.2
      (fun _ => .error .provider) .provider rfl rfl⟩

/-- The search loop returns the untouched accumulator when every record
fails the metadata filter. -/

theorem scoreLoop_all_filtered (qe : Vec) (d : StoreData) (filt : Metadata) :
    ∀ (is : List Nat) (acc : List ScoredResult),
      (∀ i ∈ is, matchesFilter filt (d.metadatas.getD i []) = false) →
      scoreLoop qe d filt is acc = .ok acc := by
  intro is
  induction is with
  | nil => intro acc _; simp [scoreLoop]
  | cons i rest ih =>
    intro acc h
    rw [scoreLoop,
      if_neg (by simp only [h i (List.mem_cons_self i rest)]; simp)]
    exact ih acc (fun j hj => h j (List.mem_cons_of_mem i hj))

/-- C9 (counterexample): `searchWithScores` on a NON-empty collection with
a filter matching no record returns `[]` without error, refuting "returns
`[]` without error only when the collection is empty". -/

theorem C9_searchWithScores_counterexample :
    (ChromaStore.searchWithScores pSingle "q" 4 [("source", "zzz")] w0 sW).1
      = .ok [] ∧
    dW.documents ≠ [] ∧ sW.data = some dW := by
  refine ⟨rfl, by decide, rfl⟩

/-- C9 (amended): `searchWithScores` propagates embedding-provider
failures to the caller as an error rather than degrading to an empty
result set; it returns `[]` without error when the collection is empty,
and also on a non-empty collection when no stored record passes the
metadata filter. -/

theorem C9_searchWithScores_amended
    (p : EmbeddingProvider) (q : String) (k : Nat) (filt : Metadata)
    (w : World) (s : ChromaStore) (d : StoreData)
    (hd : s.data = some d) :
    (d.documents = [] →
      (ChromaStore.searchWithScores p q k filt w s).1 = .ok []) ∧
    (∀ g e, p.single = some g → g q = .error e → d.documents ≠ [] →
      (ChromaStore.searchWithScores p q k filt w s).1 = .error e) ∧
    (∀ g qe, p.single = some g → g q = .ok qe →
      (∀ i ∈ List.range d.documents.length,
        matchesFilter filt (d.metadatas.getD i []) = false) →
      (ChromaStore.searchWithScores p q k filt w s).1 = .ok []) := by
  refine ⟨?_, ?_, ?_⟩
  · intro h0
    simp [ChromaStore.searchWithScores, hd, h0]
  · intro g e hg hge hne
    simp [ChromaStore.searchWithScores, hd, hne, embedQueryCall, hg, hge]
  · intro g qe hg hge hfilt
    by_cases hnil : d.documents = []
    · simp [ChromaStore.searchWithScores, hd, hnil]
    · have hsr : scoreRecords qe d filt = .ok [] :=
        scoreLoop_all_filtered qe d filt _ [] hfilt
      simp [ChromaStore.searchWithScores, hd, hnil, embedQueryCall, hg,
        hge, hsr]

theorem C9_searchWithScores_amended_witness :
    ((ChromaStore.searchWithScores pSingle "q" 4 [] w0 (ChromaStore.new "col")).1
      = .ok []) ∧
    ((ChromaStore.searchWithScores pFail "q" 4 [] w0 sW).1 = .error .provider) :=
  ⟨(C9_searchWithScores_amended pSingle "q" 4 [] w0 (ChromaStore.new "col")
      emptyData rfl).1 rfl,
   (C9_searchWithScores_amended pFail "q" 4 [] w0 sW dW rfl).2.1
      (fun _ => .error .provider) .provider rfl rfl (by decide)⟩

/-- C10: `addDocuments` with a `null`/`undefined` or empty document list on
an initialized store is a pure no-op: the result is `ok`, the store is
unchanged, and the world (persisted files, ghost log of provider calls and
disk writes) is unchanged — so no provider call and no persistence write
happens, in either mode. -/

theorem C10_addDocuments_empty_noop
    (p : EmbeddingProvider) (w : World) (s : ChromaStore) (d : StoreData)
    (hd : s.data = some d) :
    ChromaStore.addDocuments p none w s = (.ok (), w, s) ∧
    ChromaStore.addDocuments p (some []) w s = (.ok (), w, s) := by
  constructor <;> simp [ChromaStore.addDocuments, hd]

theorem C10_addDocuments_empty_noop_witness :
    ChromaStore.addDocuments pSingle none w0 sW = (.ok (), w0, sW) ∧
    ChromaStore.addDocuments pSingle (some []) w0 sW = (.ok (), w0, sW) :=
  C10_addDocuments_empty_noop pSingle w0 sW dW rfl

/-- C4: `addDocuments` fails atomically per batch: when embedding
generation fails (whether via the batch call or any one-at-a-time fallback
call), the call throws that error and the store is unchanged — none of the
four parallel collections is extended. -/

theorem C4_addDocuments_atomic
    (p : EmbeddingProvider) (ds : List JsDoc) (w : World) (s : ChromaStore)
    (d : StoreData) (e : Err) (w₂ : World)
    (hd : s.data = some d) (hne : ds ≠ [])
    (hgen : ChromaStore.generateEmbeddings p (ds.map (·.pageContent))
      (allocIds w ds.length).2 = (.error e, w₂)) :
    ChromaStore.addDocuments p (some ds) w s = (.error e, w₂, s) := by
  simp [ChromaStore.addDocuments, hd, hne, hgen]

theorem C4_addDocuments_atomic_witness :
    (([⟨"x", []⟩] : List JsDoc) ≠ []) ∧
    (ChromaStore.addDocuments pFail (some [⟨"x", []⟩]) w0 sW).1
      = .error .provider ∧
    (ChromaStore.addDocuments pFail (some [⟨"x", []⟩]) w0 sW).2.2 = sW := by
  have H := C4_addDocuments_atomic pFail [⟨"x", []⟩] w0 sW dW .provider _
    rfl (by decide) rfl
  exact ⟨by decide, by rw [H], by rw [H]⟩

theorem embedLoop_ok_length (g : String → Except Err Vec) :
    ∀ (texts : List String) (vs : List Vec) (w : World) (vs' : List Vec)
      (w' : World), embedLoop g texts vs w = (.ok vs', w') →
      vs'.length = vs.length + texts.length := by
  intro texts
  induction texts with
  | nil =>
    intro vs w vs' w' h
    simp only [embedLoop] at h
    simp [← (Prod.mk.injEq _ _ _ _ ▸ h).1.symm]
    exact congrArg List.length (Except.ok.inj (congrArg Prod.fst h)).symm
  | cons t rest ih =>
    intro vs w vs' w' h
    simp only [embedLoop] at h
    cases hgt : g t with
    | ok v =>
      rw [hgt] at h
      have := ih (vs ++ [v]) _ vs' w' h
      simp only [List.length_append, List.length_cons, List.length_nil]
        at this ⊢
      omega
    | error e =>
      rw [hgt] at h
      exact absurd (congrArg Prod.fst h) (by simp)

theorem generateEmbeddings_ok_length (p : EmbeddingProvider)
    (texts : List String) (w : World) (embs : List Vec) (w' : World)
    (hbc : BatchContract p)
    (h : ChromaStore.generateEmbeddings p texts w = (.ok embs, w')) :
    embs.length = texts.length := by
  unfold ChromaStore.generateEmbeddings at h
  cases hpb : p.batch with
  | some f =>
    rw [hpb] at h
    exact hbc f texts embs hpb (congrArg Prod.fst h)
  | none =>
    rw [hpb] at h
    cases hps : p.single with
    | some g =>
      rw [hps] at h
      simpa using embedLoop_ok_length g texts [] w embs w' h
    | none =>
      rw [hps] at h
      exact absurd (congrArg Prod.fst h) (by simp)

theorem foldl_eraseIdx_length_congr {α β : Type _} :
    ∀ (is : List Nat) (l₁ : List α) (l₂ : List β),
      l₁.length = l₂.length →
      (is.foldl (fun acc i => acc.eraseIdx i) l₁).length
        = (is.foldl (fun acc i => acc.eraseIdx i) l₂).length := by
  intro is
  induction is with
  | nil => intro l₁ l₂ h; exact h
  | cons i rest ih =>
    intro l₁ l₂ h
    simp only [List.foldl_cons]
    exact ih _ _ (by rw [List.length_eraseIdx, List.length_eraseIdx, h])

theorem eraseIdxsRev_length_congr {α β : Type _} (idxs : List Nat)
    (l₁ : List α) (l₂ : List β) (h : l₁.length = l₂.length) :
    (eraseIdxsRev l₁ idxs).length = (eraseIdxsRev l₂ idxs).length :=
  foldl_eraseIdx_length_congr idxs.reverse l₁ l₂ h

/-- `flushAfter` never changes the store component. -/

theorem flushAfter_snd (w : World) (s : ChromaStore) :
    (flushAfter w s).2.2 = s := by
  unfold flushAfter
  rcases s.saveToDisk w with ⟨rv, w'⟩
  cases rv <;> rfl

/-- `addDocuments` either leaves the store untouched or appends the same
number of entries to each of the four collections. -/

theorem addDocuments_shape (p : EmbeddingProvider) (ds : List JsDoc)
    (w : World) (s : ChromaStore) (d : StoreData) (hd : s.data = some d) :
    (ChromaStore.addDocuments p (some ds) w s).2.2 = s ∨
    ∃ embs w₂,
      ChromaStore.generateEmbeddings p (ds.map (·.pageContent))
        (allocIds w ds.length).2 = (.ok embs, w₂) ∧
      (ChromaStore.addDocuments p (some ds) w s).2.2
        = { s with data := some (addedData d ds w embs) } := by
  by_cases hnil : ds = []
  · left; simp [ChromaStore.addDocuments, hd, hnil]
  · rcases hgen : ChromaStore.generateEmbeddings p (ds.map (·.pageContent))
      (allocIds w ds.length).2 with ⟨r, w₂⟩
    cases r with
    | error e =>
      left; simp [ChromaStore.addDocuments, hd, hnil, hgen]
    | ok embs =>
      right
      refine ⟨embs, w₂, hgen, ?_⟩
      have hgen' := hgen
      simp only [allocIds] at hgen'
      simp [ChromaStore.addDocuments, hd, hnil, allocIds, hgen',
        flushAfter_snd, addedData]

theorem lookup_mem {α β : Type _} [BEq α] [LawfulBEq α] :
    ∀ {l : List (α × β)} {a : α} {b : β},
      l.lookup a = some b → (a, b) ∈ l := by
  intro l
  induction l with
  | nil => intro a b h; simp [List.lookup] at h
  | cons kv t ih =>
    intro a b h
    rcases kv with ⟨k, v⟩
    rw [List.lookup] at h
    cases hbe : a == k with
    | true =>
      rw [hbe] at h
      have hk : a = k := eq_of_beq hbe
      have hv : v = b := by simpa using h
      subst hk; subst hv
      exact List.mem_cons_self _ _
    | false =>
      rw [hbe] at h
      exact List.mem_cons_of_mem _ (ih h)

theorem alignedData_emptyData : alignedData emptyData := by decide

theorem alignedStore_loadFromDisk (w : World) (s : ChromaStore)
    (hw : diskAligned w) (hs : alignedStore s) :
    alignedStore (ChromaStore.loadFromDisk w s).2.2 := by
  unfold ChromaStore.loadFromDisk
  cases hlk : w.disk.lookup s.collectionName with
  | none =>
    intro d hd
    have : emptyData = d := by simpa using hd
    subst this
    exact alignedData_emptyData
  | some snap =>
    by_cases hr : w.readFails
    · simp only [if_pos hr]
      exact hs
    · simp only [if_neg hr]
      intro d hd
      have : snap = d := by simpa using hd
      subst this
      exact hw s.collectionName snap (lookup_mem hlk)

theorem alignedStore_initMode (persistent : Bool) (nm : Option String)
    (w : World) (s : ChromaStore) (hw : diskAligned w) (hs : alignedStore s) :
    alignedStore (ChromaStore.initMode persistent nm w s).2.2 := by
  unfold ChromaStore.initMode
  cases persistent with
  | true =>
    exact alignedStore_loadFromDisk w _ hw (fun d hd => hs d hd)
  | false =>
    intro d hd
    have : emptyData = d := by simpa using hd
    subst this
    exact alignedData_emptyData

theorem alignedStore_addDocuments (p : EmbeddingProvider)
    (docs : Option (List JsDoc)) (w : World) (s : ChromaStore)
    (hbc : BatchContract p) (hs : alignedStore s) :
    alignedStore (ChromaStore.addDocuments p docs w s).2.2 := by
  cases hsd : s.data with
  | none => simp only [ChromaStore.addDocuments, hsd]; exact hs
  | some d =>
    cases docs with
    | none => simp only [ChromaStore.addDocuments, hsd]; exact hs
    | some ds =>
      rcases addDocuments_shape p ds w s d hsd with heq | ⟨embs, w₂, hgen, heq⟩
      · rw [heq]; exact hs
      · rw [heq]
        intro d'' hd''
        have hx := hs d hsd
        have hemb : embs.length = ds.length := by
          simpa using generateEmbeddings_ok_length p _ _ _ _ hbc hgen
        have : addedData d ds w embs = d'' := by simpa using hd''
        subst this
        refine ⟨?_, ?_, ?_⟩ <;>
          simp [addedData, allocIds, List.length_append, List.length_map,
            List.length_range, hx.1, hx.2.1, hx.2.2, hemb]

theorem alignedStore_deleteDocuments (ids : List String) (w : World)
    (s : ChromaStore) (hs : alignedStore s) :
    alignedStore (ChromaStore.deleteDocuments ids w s).2.2 := by
  cases hsd : s.data with
  | none => simp only [ChromaStore.deleteDocuments, hsd]; exact hs
  | some d =>
    have hx := hs d hsd
    simp only [ChromaStore.deleteDocuments, hsd, flushAfter_snd]
    intro d'' hd''
    have : (⟨eraseIdxsRev d.ids
        ((List.range d.ids.length).filter
          (fun i => ids.contains (d.ids.getD i ""))),
        eraseIdxsRev d.documents
        ((List.range d.ids.length).filter
          (fun i => ids.contains (d.ids.getD i ""))),
        eraseIdxsRev d.embeddings
        ((List.range d.ids.length).filter
          (fun i => ids.contains (d.ids.getD i ""))),
        eraseIdxsRev d.metadatas
        ((List.range d.ids.length).filter
          (fun i => ids.contains (d.ids.getD i "")))⟩ : StoreData) = d'' := by
      simpa using hd''
    subst this
    exact ⟨eraseIdxsRev_length_congr _ _ _ hx.1,
      eraseIdxsRev_length_congr _ _ _ hx.2.1,
      eraseIdxsRev_length_congr _ _ _ hx.2.2⟩

theorem alignedStore_importData (e : ExportData) (w : World) (s : ChromaStore)
    (he : alignedData e.data) (hs : alignedStore s) :
    alignedStore (ChromaStore.importData e w s).2.2 := by
  cases hsd : s.data with
  | none => simp only [ChromaStore.importData, hsd]; exact hs
  | some d =>
    have hx := hs d hsd
    by_cases hlen : 0 < e.data.ids.length
    · simp only [ChromaStore.importData, hsd, if_pos hlen, flushAfter_snd]
      intro d'' hd''
      have : (⟨d.ids ++ e.data.ids, d.documents ++ e.data.documents,
          d.embeddings ++ e.data.embeddings,
          d.metadatas ++ e.data.metadatas⟩ : StoreData) = d'' := by
        simpa using hd''
      subst this
      refine ⟨?_, ?_, ?_⟩ <;>
        simp [List.length_append, hx.1, hx.2.1, hx.2.2, he.1, he.2.1, he.2.2]
    · simp only [ChromaStore.importData, hsd, if_neg hlen]
      exact hs

theorem alignedStore_clearCollection (w : World) (s : ChromaStore)
    (hs : alignedStore s) :
    alignedStore (ChromaStore.clearCollection w s).2.2 := by
  cases hsd : s.data with
  | none => simp only [ChromaStore.clearCollection, hsd]; exact hs
  | some d =>
    simp only [ChromaStore.clearCollection, hsd, flushAfter_snd]
    intro d'' hd''
    have : emptyData = d'' := by simpa using hd''
    subst this
    exact alignedData_emptyData

theorem alignedStore_switchMode (persistent preserve : Bool) (w : World)
    (s : ChromaStore) (hw : diskAligned w) (hs : alignedStore s) :
    alignedStore (ChromaStore.switchMode persistent preserve w s).2.2 := by
  cases hsd : s.data with
  | none => simp only [ChromaStore.switchMode, hsd]; exact hs
  | some d =>
    have hx := hs d hsd
    simp only [ChromaStore.switchMode, hsd, ChromaStore.exportData]
    rcases hini : ChromaStore.initMode persistent (some s.collectionName) w s
      with ⟨ri, wi, si⟩
    have hsi : alignedStore si := by
      have := alignedStore_initMode persistent (some s.collectionName) w s hw hs
      rwa [hini] at this
    by_cases hpres : preserve = true ∧ 0 < d.documents.length
    · simp only [if_pos hpres, hini]
      cases ri with
      | error e => exact hsi
      | ok _ =>
        exact alignedStore_importData ⟨s.collectionName, d⟩ wi
          { si with data := some emptyData } hx
          (fun d' hd' => by
            have : emptyData = d' := by simpa using hd'
            subst this
            exact alignedData_emptyData)
    · simp only [if_neg hpres, hini]
      cases ri with
      | error e => exact hsi
      | ok _ => exact hsi

/-- On success, `addDocuments` grows the document count by exactly the
number of chunks. -/

theorem addDocuments_count (p : EmbeddingProvider) (ds : List JsDoc)
    (w : World) (s : ChromaStore) (d : StoreData) (w' : World)
    (s' : ChromaStore) (hd : s.data = some d)
    (h : ChromaStore.addDocuments p (some ds) w s = (.ok (), w', s')) :
    s'.getDocumentCount = .ok (d.documents.length + ds.length) := by
  by_cases hnil : ds = []
  · subst hnil
    have heq : ChromaStore.addDocuments p (some []) w s = (.ok (), w, s) := by
      simp [ChromaStore.addDocuments, hd]
    rw [heq] at h
    have hs' : s = s' := congrArg (fun x => x.2.2) h
    subst hs'
    simp [ChromaStore.getDocumentCount, hd]
  · rcases hgen : ChromaStore.generateEmbeddings p (ds.map (·.pageContent))
      (allocIds w ds.length).2 with ⟨r, w₂⟩
    have hgen' := hgen
    simp only [allocIds] at hgen'
    cases r with
    | error e =>
      rw [show ChromaStore.addDocuments p (some ds) w s = (.error e, w₂, s)
        from by simp [ChromaStore.addDocuments, hd, hnil, allocIds, hgen']]
        at h
      exact absurd (congrArg (fun x => x.1) h) (by simp)
    | ok embs =>
      have hshape : ChromaStore.addDocuments p (some ds) w s
          = flushAfter w₂ { s with data := some (addedData d ds w embs) } := by
        simp [ChromaStore.addDocuments, hd, hnil, allocIds, hgen', addedData]
      rw [hshape] at h
      have hs' : s' = { s with data := some (addedData d ds w embs) } := by
        rw [← flushAfter_snd w₂ { s with data := some (addedData d ds w embs) }]
        exact (congrArg (fun x => x.2.2) h).symm
      rw [hs']
      simp [ChromaStore.getDocumentCount, addedData]

/-- C2: the four parallel collections stay equal-length and index-aligned
across every store operation (`addDocuments`, `deleteDocuments`,
`importData`, `clearCollection`, `switchMode`), including when the
operation fails partway through (a thrown error still leaves the four
collections aligned), given the external contracts: the batch embedding
provider returns one vector per text, import payloads are well-formed
snapshots, and persisted snapshots on disk are aligned.  Moreover a
successful `addDocuments(chunks)` grows `getDocumentCount()` by exactly
the number of chunks. -/

theorem C2_alignment_invariant :
    (∀ (p : EmbeddingProvider) (op : StoreOp) (w : World) (s : ChromaStore),
      BatchContract p → diskAligned w → opWellFormed op → alignedStore s →
      alignedStore (ChromaStore.runOp p op w s).2.2) ∧
    (∀ (p : EmbeddingProvider) (ds : List JsDoc) (w : World) (s : ChromaStore)
      (d : StoreData) (w' : World) (s' : ChromaStore),
      s.data = some d →
      ChromaStore.addDocuments p (some ds) w s = (.ok (), w', s') →
      s'.getDocumentCount = .ok (d.documents.length + ds.length)) := by
  constructor
  · intro p op w s hbc hw hop hs
    cases op with
    | add docs => exact alignedStore_addDocuments p docs w s hbc hs
    | del ids => exact alignedStore_deleteDocuments ids w s hs
    | imp e => exact alignedStore_importData e w s hop hs
    | clear => exact alignedStore_clearCollection w s hs
    | switch pe pr => exact alignedStore_switchMode pe pr w s hw hs
  · intro p ds w s d w' s' hd h
    exact addDocuments_count p ds w s d w' s' hd h

theorem C2_alignment_invariant_witness :
    alignedStore
      (ChromaStore.runOp pSingle (.add (some [⟨"x", []⟩])) w0 sW).2.2 ∧
    (ChromaStore.addDocuments pSingle (some [⟨"x", []⟩]) w0 sW).2.2.getDocumentCount
      = .ok (dW.documents.length + 1) :=
  ⟨C2_alignment_invariant.1 pSingle (.add (some [⟨"x", []⟩])) w0 sW
      (fun f texts embs hf => by simp [pSingle] at hf)
      (fun nm snap h => by simp [w0] at h)
      trivial
      (fun d h => by
        have : dW = d := by simpa [sW] using h
        subst this; decide),
   C2_alignment_invariant.2 pSingle [⟨"x", []⟩] w0 sW dW
      (ChromaStore.addDocuments pSingle (some [⟨"x", []⟩]) w0 sW).2.1
      (ChromaStore.addDocuments pSingle (some [⟨"x", []⟩]) w0 sW).2.2
      rfl rfl⟩

/-- When the mode intake throws (a failing disk read), the collections are
left untouched. -/

theorem initMode_error_data (pe : Bool) (nm : Option String) (w : World)
    (s : ChromaStore) (e : Err) (wi : World) (si : ChromaStore)
    (h : ChromaStore.initMode pe nm w s = (.error e, wi, si)) :
    si.data = s.data := by
  unfold ChromaStore.initMode ChromaStore.loadFromDisk at h
  cases pe with
  | false => simp at h
  | true =>
    cases hlk : w.disk.lookup (nm.getD s.collectionName) with
    | none =>
      simp only [hlk] at h
      exact absurd (congrArg (fun x => x.1) h) (by simp)
    | some snap =>
      by_cases hr : w.readFails
      · simp only [hlk, if_pos hr] at h
        have := congrArg (fun x => x.2.2) h
        simp at this
        rw [← this]
      · simp only [hlk, if_neg hr] at h
        exact absurd (congrArg (fun x => x.1) h) (by simp)

/-- C3: on a populated aligned store, `switchMode(persistent, true)` keeps
the in-memory records through every outcome — success, a failing disk read
during the re-intake, or a failing flush during the re-import.  The
resulting store always holds exactly the pre-switch collections, so
`getDocumentCount()` equals the pre-switch count and the store is never
left silently empty. -/

theorem C3_switchMode_preserves
    (persistent : Bool) (w : World) (s : ChromaStore) (d : StoreData)
    (hd : s.data = some d) (ha : alignedData d) (hne : d.documents ≠ []) :
    (ChromaStore.switchMode persistent true w s).2.2.data = some d ∧
    (ChromaStore.switchMode persistent true w s).2.2.getDocumentCount
      = .ok d.documents.length := by
  have hlenpos : 0 < d.documents.length := List.length_pos.mpr hne
  have hexp : ChromaStore.exportData s = .ok ⟨s.collectionName, d⟩ := by
    simp [ChromaStore.exportData, hd]
  have hidlen : 0 < d.ids.length := by rw [ha.1]; exact hlenpos
  have hdata : (ChromaStore.switchMode persistent true w s).2.2.data
      = some d := by
    simp only [ChromaStore.switchMode, hd, hexp, hlenpos, and_true,
      if_pos rfl]
    rcases hini : ChromaStore.initMode persistent (some s.collectionName) w s
      with ⟨ri, wi, si⟩
    cases ri with
    | error e =>
      exact (initMode_error_data persistent (some s.collectionName) w s
        e wi si hini).trans hd
    | ok u =>
      have himp : (ChromaStore.importData ⟨s.collectionName, d⟩ wi
          { si with data := some emptyData }).2.2.data = some d := by
        simp [ChromaStore.importData, hidlen, flushAfter_snd, emptyData]
      exact himp
  refine ⟨hdata, ?_⟩
  rw [ChromaStore.getDocumentCount, hdata]

theorem C3_switchMode_preserves_witness :
    (ChromaStore.switchMode true true w0 sW).2.2.data = some dW ∧
    (ChromaStore.switchMode true true w0 sW).2.2.getDocumentCount
      = .ok dW.documents.length :=
  C3_switchMode_preserves true w0 sW dW rfl (by decide) (by decide)

/-- The detection loop only ever extends the processed-file map, and after
a loop that never threw at `statSync`, every chunk's `(source, mtime)` key
is recorded. -/

theorem procLoop_records (mt : String → Option Nat) :
    ∀ (docs nd : List JsDoc) (pf : List (String × Nat)) (st : Stats),
      (∀ k ∈ pf, k ∈ (procLoop mt docs nd pf st).2) ∧
      ((∀ doc ∈ docs, (fileKeyOf mt doc).isOk = true) →
        ∀ doc ∈ docs, ∃ k, fileKeyOf mt doc = .ok k ∧
          k ∈ (procLoop mt docs nd pf st).2) := by
  intro docs
  induction docs with
  | nil =>
    intro nd pf st
    exact ⟨fun k hk => hk, fun _ doc hdoc => absurd hdoc (List.not_mem_nil _)⟩
  | cons doc rest ih =>
    intro nd pf st
    cases hk : fileKeyOf mt doc with
    | error e =>
      constructor
      · intro k hk'
        simp only [procLoop, hk]
        exact hk'
      · intro hok
        have := hok doc (List.mem_cons_self doc rest)
        rw [hk] at this
        simp [Except.isOk, Except.toBool] at this
    | ok key =>
      by_cases hmem : pf.contains key
      · constructor
        · intro k hk'
          simp only [procLoop, hk, if_pos hmem]
          exact (ih nd pf _).1 k hk'
        · intro hok doc' hdoc'
          rcases List.mem_cons.mp hdoc' with rfl | hd'
          · refine ⟨key, hk, ?_⟩
            simp only [procLoop, hk, if_pos hmem]
            exact (ih nd pf _).1 key (List.mem_of_elem_eq_true hmem)
          · have := (ih nd pf
              { st with skipped := st.skipped + 1 }).2
              (fun x hx => hok x (List.mem_cons_of_mem doc hx)) doc' hd'
            rcases this with ⟨k, hk1, hk2⟩
            refine ⟨k, hk1, ?_⟩
            simp only [procLoop, hk, if_pos hmem]
            exact hk2
      · constructor
        · intro k hk'
          simp only [procLoop, hk, if_neg hmem]
          exact (ih (nd ++ [doc]) (pf ++ [key]) _).1 k
            (List.mem_append_left _ hk')
        · intro hok doc' hdoc'
          rcases List.mem_cons.mp hdoc' with heq | hd'
          · refine ⟨key, by rw [heq]; exact hk, ?_⟩
            simp only [procLoop, hk, if_neg hmem]
            exact (ih (nd ++ [doc]) (pf ++ [key]) _).1 key
              (List.mem_append_right _ (List.mem_singleton_self key))
          · have := (ih (nd ++ [doc]) (pf ++ [key])
              { st with processed := st.processed + 1 }).2
              (fun x hx => hok x (List.mem_cons_of_mem doc hx)) doc' hd'
            rcases this with ⟨k, hk1, hk2⟩
            refine ⟨k, hk1, ?_⟩
            simp only [procLoop, hk, if_neg hmem]
            exact hk2

/-- When every chunk's key is already recorded, the loop skips everything:
no new documents, `skipped` counts all chunks, and the map is unchanged. -/

theorem procLoop_all_skipped (mt : String → Option Nat) :
    ∀ (docs nd : List JsDoc) (pf : List (String × Nat)) (st : Stats),
      (∀ doc ∈ docs, ∃ k, fileKeyOf mt doc = .ok k ∧ k ∈ pf) →
      procLoop mt docs nd pf st
        = (.ok (nd, { st with skipped := st.skipped + docs.length }), pf) := by
  intro docs
  induction docs with
  | nil => intro nd pf st _; simp [procLoop]
  | cons doc rest ih =>
    intro nd pf st h
    rcases h doc (List.mem_cons_self doc rest) with ⟨key, hk, hmem⟩
    rw [procLoop, hk]
    simp only [if_pos (List.elem_eq_true_of_mem hmem)]
    rw [ih nd pf { st with skipped := st.skipped + 1 }
      (fun x hx => h x (List.mem_cons_of_mem doc hx))]
    have : st.skipped + 1 + rest.length = st.skipped + (rest.length + 1) := by
      omega
    simp [this]

/-- `processDocuments` always commits the updated processed-file map, even
when the batch insert (or a `statSync` call) throws. -/

theorem processDocuments_pf (p : EmbeddingProvider) (mt : String → Option Nat)
    (docs : List JsDoc) (w : World) (proc : DocumentProcessor) :
    ((proc.processDocuments p mt docs w).2.2).processedFiles
      = (procLoop mt docs [] proc.processedFiles ⟨0, 0, 0⟩).2 := by
  unfold DocumentProcessor.processDocuments
  rcases hpl : procLoop mt docs [] proc.processedFiles ⟨0, 0, 0⟩ with ⟨r, pf'⟩
  cases r with
  | error e => rfl
  | ok v =>
    rcases v with ⟨nd, st⟩
    by_cases hnd : 0 < nd.length
    · simp only [if_pos hnd]
      rcases hadd : ChromaStore.addDocuments p (some nd) w proc.store
        with ⟨ra, wa, sa⟩
      cases ra <;> rfl
    · simp only [if_neg hnd]

/-- C6: indexing is idempotent.  If every chunk's source file exists (so
`statSync` succeeds), then immediately re-running `processAllDocuments`
with the same loader output and the same modification times returns
`added = 0` (indeed `{processed := 0, added := 0, skipped := all}`),
because every chunk's `(sourcePath, modificationTime)` key is already in
the processed-file map — regardless of whether the first run's batch
insert succeeded. -/

theorem C6_processAllDocuments_idempotent
    (p p₂ : EmbeddingProvider) (mt : String → Option Nat) (docs : List JsDoc)
    (w : World) (proc : DocumentProcessor)
    (hok : ∀ doc ∈ docs, (fileKeyOf mt doc).isOk = true) :
    (DocumentProcessor.processAllDocuments p₂ mt docs
      (DocumentProcessor.processAllDocuments p mt docs w proc).2.1
      (DocumentProcessor.processAllDocuments p mt docs w proc).2.2).1
      = .ok ⟨0, 0, docs.length⟩ := by
  by_cases hnil : docs = []
  · subst hnil
    simp [DocumentProcessor.processAllDocuments]
  · have hlen : ¬ docs.length = 0 := by
      simpa [List.length_eq_zero] using hnil
    have h1 : (DocumentProcessor.processAllDocuments p mt docs w proc)
        = proc.processDocuments p mt docs w := by
      simp [DocumentProcessor.processAllDocuments, hlen]
    have hkeys : ∀ doc ∈ docs, ∃ k, fileKeyOf mt doc = .ok k ∧
        k ∈ ((proc.processDocuments p mt docs w).2.2).processedFiles := by
      intro doc hdoc
      rcases (procLoop_records mt docs [] proc.processedFiles ⟨0, 0, 0⟩).2
        hok doc hdoc with ⟨k, hk1, hk2⟩
      exact ⟨k, hk1, by rw [processDocuments_pf]; exact hk2⟩
    rw [h1]
    have h2 : (DocumentProcessor.processAllDocuments p₂ mt docs
        (proc.processDocuments p mt docs w).2.1
        (proc.processDocuments p mt docs w).2.2)
        = ((proc.processDocuments p mt docs w).2.2).processDocuments p₂ mt
          docs (proc.processDocuments p mt docs w).2.1 := by
      simp [DocumentProcessor.processAllDocuments, hlen]
    rw [h2]
    rcases hp1 : proc.processDocuments p mt docs w with ⟨r₁, w₁, proc₁⟩
    rw [hp1] at hkeys
    dsimp only at hkeys ⊢
    unfold DocumentProcessor.processDocuments
    rw [procLoop_all_skipped mt docs [] proc₁.processedFiles ⟨0, 0, 0⟩ hkeys]
    simp

theorem C6_processAllDocuments_idempotent_witness :
    (∀ doc ∈ ([⟨"x", [("source", "a.md")]⟩] : List JsDoc),
      (fileKeyOf (fun _ => some 5) doc).isOk = true) ∧
    (DocumentProcessor.processAllDocuments pSingle (fun _ => some 5)
      [⟨"x", [("source", "a.md")]⟩]
      (DocumentProcessor.processAllDocuments pSingle (fun _ => some 5)
        [⟨"x", [("source", "a.md")]⟩] w0 ⟨[], sW⟩).2.1
      (DocumentProcessor.processAllDocuments pSingle (fun _ => some 5)
        [⟨"x", [("source", "a.md")]⟩] w0 ⟨[], sW⟩).2.2).1
      = .ok ⟨0, 0, 1⟩ :=
  ⟨by decide,
   C6_processAllDocuments_idempotent pSingle pSingle (fun _ => some 5)
     [⟨"x", [("source", "a.md")]⟩] w0 ⟨[], sW⟩ (by decide)⟩

theorem mapSet_length (c : List (String × AskResult)) (k : String)
    (v : AskResult) :
    (mapSet c k v).length
      = if c.any (fun e => e.1 == k) then c.length else c.length + 1 := by
  unfold mapSet
  split <;> simp

theorem cacheResult_fields (q : String) (r : AskResult) (svc : RAGService) :
    (svc.cacheResult q r).maxCacheSize = svc.maxCacheSize ∧
    (svc.cacheResult q r).ready = svc.ready ∧
    (svc.cacheResult q r).cacheEnabled = svc.cacheEnabled := by
  unfold RAGService.cacheResult
  exact ⟨rfl, rfl, rfl⟩

/-- Inserting fresh keys while under capacity appends them in order. -/

theorem cacheRun_fresh (f : String → AskResult) :
    ∀ (qs : List String) (svc : RAGService),
      (∀ q ∈ qs, svc.queryCache.any (fun e => e.1 == q) = false) →
      qs.Nodup →
      svc.queryCache.length + qs.length ≤ svc.maxCacheSize →
      (cacheInsertRun f qs svc).queryCache
        = svc.queryCache ++ qs.map (fun q => (q, { f q with cached := true }))
      ∧ (cacheInsertRun f qs svc).maxCacheSize = svc.maxCacheSize := by
  intro qs
  induction qs with
  | nil => intro svc _ _ _; simp [cacheInsertRun]
  | cons q rest ih =>
    intro svc hfresh hnd hcap
    have hq := hfresh q (List.mem_cons_self q rest)
    have hunder : ¬ svc.maxCacheSize ≤ svc.queryCache.length := by
      simp only [List.length_cons] at hcap
      omega
    have hstep : (svc.cacheResult q (f q)).queryCache
        = svc.queryCache ++ [(q, { f q with cached := true })] := by
      unfold RAGService.cacheResult mapSet
      simp [if_neg hunder, hq]
    have hstepmax : (svc.cacheResult q (f q)).maxCacheSize
        = svc.maxCacheSize := (cacheResult_fields q (f q) svc).1
    have hrest := ih (svc.cacheResult q (f q))
      (by
        intro q' hq'
        rw [hstep]
        have h1 : svc.queryCache.any (fun e => e.1 == q') = false :=
          hfresh q' (List.mem_cons_of_mem q hq')
        have h2 : (q == q') = false := by
          have : q ≠ q' := fun heq => (List.nodup_cons.mp hnd).1 (heq ▸ hq')
          exact beq_eq_false_iff_ne.mpr this
        simp [List.any_append, h1, h2])
      (List.nodup_cons.mp hnd).2
      (by
        rw [hstep, hstepmax]
        simp only [List.length_append, List.length_cons, List.length_nil]
          at hcap ⊢
        omega)
    rcases hrest with ⟨hcache, hmax⟩
    constructor
    · show (cacheInsertRun f rest (svc.cacheResult q (f q))).queryCache = _
      rw [hcache, hstep]
      simp
    · show (cacheInsertRun f rest (svc.cacheResult q (f q))).maxCacheSize = _
      rw [hmax, hstepmax]

/-- One `cacheResult` call never pushes the cache above a positive
capacity. -/

theorem cacheResult_length_le (q : String) (r : AskResult) (svc : RAGService)
    (hN : 0 < svc.maxCacheSize)
    (hle : svc.queryCache.length ≤ svc.maxCacheSize) :
    (svc.cacheResult q r).queryCache.length ≤ svc.maxCacheSize := by
  unfold RAGService.cacheResult
  by_cases hev : svc.maxCacheSize ≤ svc.queryCache.length
  · simp only [if_pos hev, mapSet_length]
    split <;> simp [List.length_tail] <;> omega
  · simp only [if_neg hev, mapSet_length]
    split <;> omega

theorem cacheRun_length_le (f : String → AskResult) :
    ∀ (qs : List String) (svc : RAGService),
      0 < svc.maxCacheSize →
      svc.queryCache.length ≤ svc.maxCacheSize →
      (cacheInsertRun f qs svc).queryCache.length ≤ svc.maxCacheSize := by
  intro qs
  induction qs with
  | nil => intro svc _ h; exact h
  | cons q rest ih =>
    intro svc hN hle
    have h1 := cacheResult_length_le q (f q) svc hN hle
    have hmax := (cacheResult_fields q (f q) svc).1
    have := ih (svc.cacheResult q (f q)) (by rw [hmax]; exact hN)
      (by rw [hmax]; exact h1)
    rw [hmax] at this
    exact this

theorem lookup_map_eq_none (g : String → String × AskResult)
    (hg : ∀ q, (g q).1 = q) :
    ∀ (l : List String) (q : String), q ∉ l → (l.map g).lookup q = none := by
  intro l
  induction l with
  | nil => intro q _; rfl
  | cons x rest ih =>
    intro q hq
    rw [List.map_cons, List.lookup]
    have hne : (q == (g x).1) = false := by
      rw [hg x]
      exact beq_eq_false_iff_ne.mpr (fun heq => hq (heq ▸ List.mem_cons_self x rest))
    rw [hne]
    exact ih q (fun hmem => hq (List.mem_cons_of_mem x hmem))

theorem anyKey_map_false (entry : String → AskResult) :
    ∀ (l : List String) (q : String), q ∉ l →
      ((l.map (fun x => (x, entry x))).any (fun e => e.1 == q)) = false := by
  intro l
  induction l with
  | nil => intro q _; rfl
  | cons x rest ih =>
    intro q hq
    have hxq : (x == q) = false :=
      beq_eq_false_iff_ne.mpr (fun heq => hq (heq ▸ List.mem_cons_self x rest))
    simp only [List.map_cons, List.any_cons, hxq, Bool.false_or]
    exact ih q (fun hmem => hq (List.mem_cons_of_mem x hmem))

/-- C7: the query cache is FIFO-bounded.  With capacity `N ≥ 1`, caching
`N + 1` distinct questions into an empty cache (no hits in between) leaves
exactly the entries of the last `N` questions: the first-inserted
question has been evicted (its lookup misses, so its next `ask`
recomputes), eviction removed the oldest inserted key, and the cache size
never exceeded `N` at any point of the run. -/

theorem C7_cache_fifo_eviction
    (N : Nat) (qs : List String) (f : String → AskResult) (svc : RAGService)
    (hN : 0 < N) (hnodup : qs.Nodup) (hlen : qs.length = N + 1)
    (hempty : svc.queryCache = []) (hmax : svc.maxCacheSize = N) :
    ∃ q₀ rest, qs = q₀ :: rest ∧
      (cacheInsertRun f qs svc).queryCache
        = rest.map (fun q => (q, { f q with cached := true })) ∧
      ((cacheInsertRun f qs svc).queryCache.lookup q₀ = none) ∧
      (cacheInsertRun f qs svc).queryCache.length = N ∧
      (∀ i, (cacheInsertRun f (qs.take i) svc).queryCache.length ≤ N) := by
  cases qs with
  | nil => simp at hlen
  | cons q₀ rest =>
    have hrlen : rest.length = N := by simpa using hlen
    have hrne : rest ≠ [] := by
      intro h
      rw [h] at hrlen
      simp at hrlen
      omega
    obtain ⟨qN, hsnoc⟩ : ∃ qN, rest.dropLast ++ [qN] = rest :=
      ⟨rest.getLast hrne, List.dropLast_append_getLast hrne⟩
    have hdll : rest.dropLast.length = N - 1 := by
      rw [List.length_dropLast, hrlen]
    have hq0rest : q₀ ∉ rest := (List.nodup_cons.mp hnodup).1
    have hrestnd : rest.Nodup := (List.nodup_cons.mp hnodup).2
    have hdlsub : rest.dropLast.Sublist rest := List.dropLast_sublist rest
    have hnd1 : (q₀ :: rest.dropLast).Nodup :=
      List.nodup_cons.mpr
        ⟨fun h => hq0rest (hdlsub.subset h), hrestnd.sublist hdlsub⟩
    have hqN_not_dl : qN ∉ rest.dropLast := by
      have hnd2 : (rest.dropLast ++ [qN]).Nodup := by rw [hsnoc]; exact hrestnd
      have hdisj := (List.nodup_append.mp hnd2).2.2
      intro hmem
      exact hdisj hmem (List.mem_singleton_self qN)
    have hsplit : cacheInsertRun f (q₀ :: rest) svc
        = RAGService.cacheResult qN (f qN)
            (cacheInsertRun f (q₀ :: rest.dropLast) svc) := by
      conv_lhs => rw [← hsnoc]
      show cacheInsertRun f ((q₀ :: rest.dropLast) ++ [qN]) svc = _
      unfold cacheInsertRun
      rw [List.foldl_append]
      rfl
    have hfresh : ∀ q ∈ q₀ :: rest.dropLast,
        svc.queryCache.any (fun e => e.1 == q) = false := by
      simp [hempty]
    have hcap : svc.queryCache.length + (q₀ :: rest.dropLast).length
        ≤ svc.maxCacheSize := by
      rw [hempty, hmax]
      simp only [List.length_nil, List.length_cons, hdll]
      omega
    obtain ⟨hc1, hm1⟩ := cacheRun_fresh f (q₀ :: rest.dropLast) svc
      hfresh hnd1 hcap
    rw [hempty, List.nil_append] at hc1
    have hany : ((rest.dropLast.map
        (fun q => (q, { f q with cached := true }))).any
        (fun e => e.1 == qN)) = false :=
      anyKey_map_false (fun q => { f q with cached := true })
        rest.dropLast qN hqN_not_dl
    have hfinal : (cacheInsertRun f (q₀ :: rest) svc).queryCache
        = rest.map (fun q => (q, { f q with cached := true })) := by
      rw [hsplit]
      unfold RAGService.cacheResult
      rw [if_pos (by
        rw [hm1, hc1, hmax]
        simp only [List.length_map, List.length_cons, hdll]
        omega)]
      rw [hc1]
      simp only [List.map_cons, List.tail_cons]
      unfold mapSet
      rw [hany]
      simp only [Bool.false_eq_true, if_false]
      rw [show ([(qN, { f qN with cached := true })]
          : List (String × AskResult))
          = [qN].map (fun q => (q, { f q with cached := true })) from rfl,
        ← List.map_append, hsnoc]
    refine ⟨q₀, rest, rfl, hfinal, ?_, ?_, ?_⟩
    · rw [hfinal]
      exact lookup_map_eq_none _ (fun q => rfl) rest q₀ hq0rest
    · rw [hfinal, List.length_map, hrlen]
    · intro i
      have := cacheRun_length_le f ((q₀ :: rest).take i) svc
        (by rw [hmax]; exact hN)
        (by rw [hempty]; exact Nat.zero_le _)
      rw [hmax] at this
      exact this

theorem C7_cache_fifo_eviction_witness :
    0 < 2 ∧ (["a", "b", "c"] : List String).Nodup ∧
    (∃ q₀ rest, (["a", "b", "c"] : List String) = q₀ :: rest ∧
      (cacheInsertRun (fun q => ⟨q, false⟩) ["a", "b", "c"]
        (svcEmpty 2)).queryCache
        = rest.map (fun q => (q, { (⟨q, false⟩ : AskResult) with
            cached := true })) ∧
      ((cacheInsertRun (fun q => ⟨q, false⟩) ["a", "b", "c"]
        (svcEmpty 2)).queryCache.lookup q₀ = none) ∧
      (cacheInsertRun (fun q => ⟨q, false⟩) ["a", "b", "c"]
        (svcEmpty 2)).queryCache.length = 2 ∧
      (∀ i, (cacheInsertRun (fun q => ⟨q, false⟩)
        ((["a", "b", "c"] : List String).take i)
        (svcEmpty 2)).queryCache.length ≤ 2)) :=
  ⟨by decide, by decide,
   C7_cache_fifo_eviction 2 ["a", "b", "c"] (fun q => ⟨q, false⟩)
     (svcEmpty 2) (by decide) (by decide) rfl rfl rfl⟩

/-- C8 (counterexample): the claim says every mutating/query method fails
with a not-initialized error when invoked before `initialize` completes.
For the store this is false: the constructor already sets the four
collections to `[]`, so `verifyInitialization` (which only tests
`documents == null`) passes and every store method succeeds on a
freshly-constructed, never-initialized store. -/

theorem C8_not_initialized_counterexample :
    (ChromaStore.addDocuments pSingle (some [⟨"x", []⟩]) w0
      (ChromaStore.new "c")).1 = .ok () ∧
    (ChromaStore.similaritySearch pSingle "q" 4 [] w0
      (ChromaStore.new "c")).1 = .ok [] ∧
    (ChromaStore.new "c").getDocumentCount = .ok 0 ∧
    (ChromaStore.deleteDocuments ["z"] w0 (ChromaStore.new "c")).1
      = .ok () ∧
    (ChromaStore.exportData (ChromaStore.new "c")).isOk = true ∧
    (ChromaStore.importData ⟨"c", emptyData⟩ w0 (ChromaStore.new "c")).1
      = .ok () ∧
    (ChromaStore.clearCollection w0 (ChromaStore.new "c")).1 = .ok () :=
  ⟨rfl, rfl, rfl, rfl, rfl, rfl, rfl⟩

/-- C8 (amended): the query service's `ask` does fail with a
not-initialized error whenever invoked before its `initialize` completed
(`isInitialized` is still false), via the `verifyInitialization`
precondition check at the top of the method.  The store's methods also
begin with a `verifyInitialization` check, but it only throws when the
documents array is `null`/`undefined`; since the constructor assigns
`[]`, the check passes from construction on, so store methods do not fail
before `initialize`. -/

theorem C8_not_initialized_amended :
    (∀ (chain : String → Except Err AskResult) (q : String) (uc : Bool)
      (svc : RAGService), svc.ready = false →
      (RAGService.ask chain q uc svc).1 = .error .notInit) ∧
    (∀ s : ChromaStore, s.data = none →
      s.verifyInitialization = .error .notInit) ∧
    (∀ nm, (ChromaStore.new nm).verifyInitialization = .ok ()) := by
  refine ⟨?_, ?_, ?_⟩
  · intro chain q uc svc h
    simp [RAGService.ask, RAGService.verifyInitialization, h]
  · intro s h
    simp [ChromaStore.verifyInitialization, h]
  · intro nm
    rfl

theorem C8_not_initialized_amended_witness :
    (RAGService.ask (fun _ => .ok ⟨"a", false⟩) "q" true svcUninit).1
      = .error .notInit ∧
    (ChromaStore.new "c").verifyInitialization = .ok () :=
  ⟨C8_not_initialized_amended.1 (fun _ => .ok ⟨"a", false⟩) "q" true
     svcUninit rfl,
   C8_not_initialized_amended.2.2 "c"⟩
